import Mathlib

/-!
Verification of the Ship of Theseus analyzer core against its specification.

The Go sources are shallowly embedded: Go strings become `List Char`
(`GoStr`), Go `float64` arithmetic on similarities becomes `ℚ` and the
timeline estimator's arithmetic (which uses `math.Exp`) becomes `ℝ`,
and calls into the external revision-history provider become explicit
function parameters (`Option`-valued where the Go call can fail).
-/

namespace ShipOfTheseus

/-- Go strings, embedded as lists of characters. -/
abbrev GoStr := List Char

/-- Embeds `strings.TrimSpace`: drop whitespace from both ends. -/
def trimSpace (s : GoStr) : GoStr :=
  ((s.dropWhile Char.isWhitespace).reverse.dropWhile Char.isWhitespace).reverse

/-- Embeds `strings.Split(s, "\n")`: split on every newline, keeping
empty fields; the result always has one more field than newlines. -/
def splitLines : GoStr → List GoStr
  | [] => [[]]
  | c :: rest =>
    if c = '\n' then [] :: splitLines rest
    else
      match splitLines rest with
      | [] => [[c]]
      | h :: t => (c :: h) :: t

/-- Embeds `levenshtein.ComputeDistance`: unit-cost
insert/delete/substitute edit distance. -/
def editDistance : List Char → List Char → ℕ
  | [], ys => ys.length
  | x :: xs, [] => (x :: xs).length
  | x :: xs, y :: ys =>
    if x = y then editDistance xs ys
    else 1 + min (editDistance xs ys)
            (min (editDistance (x :: xs) ys) (editDistance xs (y :: ys)))
termination_by a b => a.length + b.length
decreasing_by all_goals simp_arith

/-- Embeds `MinimumSimilarityThreshold` from similarity.go. -/
def MinimumSimilarityThreshold : ℚ := 0.25

/-- Embeds `CalculateSimilarity` from similarity.go: trim both strings,
return 1 on exact (trimmed) match, 0 when either side is empty,
otherwise `1 - distance / maxLen`, defensively clamped to [0, 1]. -/
def CalculateSimilarity (original current : GoStr) : ℚ :=
  let original := trimSpace original
  let current := trimSpace current
  if original = current then 1
  else if original = [] ∨ current = [] then 0
  else
    let distance : ℚ := editDistance original current
    let maxLen : ℚ := max original.length current.length
    let similarity := 1 - distance / maxLen
    if similarity < 0 then 0
    else if 1 < similarity then 1
    else similarity

/-- Embeds `IsOriginal` from similarity.go. -/
def IsOriginal (similarity : ℚ) : Bool :=
  MinimumSimilarityThreshold ≤ similarity

/-- Embeds `LineMovementWindow` from the tracer: lines may move ±10
positions and still count as "the same line". -/
def LineMovementWindow : ℕ := 10

/-- Embeds `BlameInfo` (git.go): per-line attribution data.  Timestamps
are embedded as naturals. -/
structure BlameInfo where
  CommitHash : String
  LineNum : ℕ
  CommitDate : ℕ
deriving DecidableEq

/-- Embeds `models.LineHistory`.  Timestamps are naturals, similarity ℚ. -/
structure LineHistory where
  CurrentLine : GoStr
  OriginalLine : GoStr
  CurrentLineNum : ℕ
  OriginalLineNum : ℕ
  FirstCommitHash : String
  FirstCommitDate : ℕ
  LastCommitHash : String
  LastCommitDate : ℕ
  Similarity : ℚ
deriving DecidableEq

/-- The loop body of `findSimilarLineInRange`: the accumulator is
`(bestMatch, bestSimilarity, bestLineNum)`, updated when the candidate
at (0-indexed) `i` meets the threshold and strictly beats the best
similarity so far. -/
def windowStep (lines : List GoStr) (targetLine : GoStr)
    (acc : GoStr × ℚ × ℕ) (i : ℕ) : GoStr × ℚ × ℕ :=
  let line := lines.getD i []
  let similarity := CalculateSimilarity targetLine line
  if MinimumSimilarityThreshold ≤ similarity ∧ acc.2.1 < similarity then
    (line, similarity, i + 1)
  else acc

/-- Embeds `findSimilarLineInRange`: scan the ±10 window around the
(1-indexed) target position, clamped to the file's bounds, keeping the
first candidate that strictly improves on the best similarity so far and
meets the minimum threshold.  Go's `int` clamp `if start < 0` coincides
with truncated `ℕ` subtraction for the 1-indexed positions the tracer
passes (`targetLineNum ≥ 1`). -/
def findSimilarLineInRange (lines : List GoStr) (targetLineNum : ℕ)
    (targetLine : GoStr) : GoStr × ℕ :=
  if lines = [] then ([], 0)
  else
    let targetIdx := targetLineNum - 1
    let start := targetIdx - LineMovementWindow
    let stop := min (targetIdx + LineMovementWindow) (lines.length - 1)
    let best := (List.range' start (stop + 1 - start)).foldl
      (windowStep lines targetLine) ([], (0 : ℚ), 0)
    (best.1, best.2.2)

/-- Embeds `TraceLineHistory`.  The external calls `GetFileHistory` and
`GetFileAtCommit` are passed in as parameters: `none` models a failed
call.  The Go function never returns a non-nil error, so the embedding
is total. -/
def TraceLineHistory (getFileHistory : Option (List String))
    (getFileAtCommit : String → Option GoStr)
    (currentLine : GoStr) (currentLineNum : ℕ) (blameInfo : BlameInfo) :
    LineHistory :=
  match getFileHistory with
  | none =>
    { CurrentLine := currentLine, OriginalLine := currentLine
      CurrentLineNum := currentLineNum, OriginalLineNum := currentLineNum
      FirstCommitHash := blameInfo.CommitHash
      FirstCommitDate := blameInfo.CommitDate
      LastCommitHash := blameInfo.CommitHash
      LastCommitDate := blameInfo.CommitDate
      Similarity := 1 }
  | some commitHashes =>
    if commitHashes = [] then
      { CurrentLine := currentLine, OriginalLine := currentLine
        CurrentLineNum := currentLineNum, OriginalLineNum := currentLineNum
        FirstCommitHash := blameInfo.CommitHash
        FirstCommitDate := blameInfo.CommitDate
        LastCommitHash := blameInfo.CommitHash
        LastCommitDate := blameInfo.CommitDate
        Similarity := 1 }
    else
      let firstCommitHash := commitHashes.getLastD ""
      match getFileAtCommit firstCommitHash with
      | none =>
        { CurrentLine := currentLine, OriginalLine := currentLine
          CurrentLineNum := currentLineNum, OriginalLineNum := currentLineNum
          FirstCommitHash := firstCommitHash
          FirstCommitDate := blameInfo.CommitDate
          LastCommitHash := blameInfo.CommitHash
          LastCommitDate := blameInfo.CommitDate
          Similarity := 1 }
      | some firstContent =>
        let firstLines := splitLines firstContent
        let found := findSimilarLineInRange firstLines currentLineNum currentLine
        let originalLine := found.1
        let originalLineNum := if found.1 = [] then currentLineNum else found.2
        let similarity := CalculateSimilarity originalLine currentLine
        { CurrentLine := currentLine, OriginalLine := originalLine
          CurrentLineNum := currentLineNum, OriginalLineNum := originalLineNum
          FirstCommitHash := firstCommitHash
          FirstCommitDate := blameInfo.CommitDate
          LastCommitHash := blameInfo.CommitHash
          LastCommitDate := blameInfo.CommitDate
          Similarity := similarity }

/-- Embeds `TraceFileLines`: truncate to the blame-covered prefix
(erroring when blame covers more lines than the content has), then trace
every non-blank line.  `GetBlame` failure is modelled by `blame = none`.
Note the Go loop skips only blank lines here. -/
def TraceFileLines (getFileHistory : Option (List String))
    (getFileAtCommit : String → Option GoStr)
    (blame : Option (List BlameInfo)) (fileContent : GoStr) :
    Option (List LineHistory) :=
  match blame with
  | none => none
  | some blameInfos =>
    let lines := splitLines fileContent
    if lines.length < blameInfos.length then none
    else
      let lines := lines.take blameInfos.length
      some ((List.range lines.length).filterMap (fun i =>
        let line := lines.getD i []
        if trimSpace line = [] then none
        else some (TraceLineHistory getFileHistory getFileAtCommit line (i + 1)
          (blameInfos.getD i ⟨"", 0, 0⟩))))

/-- Embeds `models.FileAnalysis`. -/
structure FileAnalysis where
  Path : String
  TotalLines : ℕ
  OriginalLines : ℕ
  AvgSimilarity : ℚ
  LineHistories : List LineHistory
deriving DecidableEq

/-- Embeds `filter.IsBlankOrComment` specialised to a `.go` path: blank
after trimming, or matching `^\s*//` or `^\s*/\*` (the RE2 class `\s` is
ASCII `[\t\n\f\r ]`). -/
def IsBlankOrCommentGo (line : GoStr) : Bool :=
  if trimSpace line = [] then true
  else
    let rest := line.dropWhile (fun c =>
      c = ' ' ∨ c = '\t' ∨ c = '\n' ∨ c = '\x0c' ∨ c = '\r')
    decide (rest.take 2 = ['/', '/']) || decide (rest.take 2 = ['/', '*'])

/-- Embeds `analyzeFile` (parallel.go): classify lines, reject files
with no kept code line, trace the full content, then fold the traced
histories into file metrics.  File reading and the classifier are
parameters (`fileContent`, `isBlankOrComment`). -/
def analyzeFile (isBlankOrComment : GoStr → Bool)
    (getFileHistory : Option (List String))
    (getFileAtCommit : String → Option GoStr)
    (blame : Option (List BlameInfo))
    (filePath : String) (fileContent : GoStr) : Option FileAnalysis :=
  let lines := splitLines fileContent
  let codeLines := lines.filter (fun line => !isBlankOrComment line)
  if codeLines = [] then none
  else
    match TraceFileLines getFileHistory getFileAtCommit blame fileContent with
    | none => none
    | some histories =>
      let totalLines := histories.length
      let originalLines :=
        (histories.filter (fun h => IsOriginal h.Similarity)).length
      let totalSimilarity := (histories.map (fun h => h.Similarity)).sum
      let avgSimilarity :=
        if 0 < totalLines then totalSimilarity / (totalLines : ℚ) else 0
      some { Path := filePath, TotalLines := totalLines
             OriginalLines := originalLines, AvgSimilarity := avgSimilarity
             LineHistories := histories }

/-- Embeds `models.Snapshot`; the estimated percentage is real-valued
because the churn model uses `math.Exp`. -/
structure Snapshot where
  CommitHash : String
  Date : ℕ
  OriginalPct : ℝ

/-- Embeds `models.CodebaseAnalysis`. -/
structure CodebaseAnalysis where
  TotalLines : ℕ
  OriginalLines : ℕ
  AverageSimilarity : ℚ
  FileAnalyses : List FileAnalysis
  HistoricalSnapshots : List Snapshot

/-- Embeds `aggregateResults` (parallel.go): sum the per-file totals and
take the line-count-weighted mean similarity. -/
def aggregateResults (fileAnalyses : List FileAnalysis) : CodebaseAnalysis :=
  let totalLines := (fileAnalyses.map (fun fa => fa.TotalLines)).sum
  let originalLines := (fileAnalyses.map (fun fa => fa.OriginalLines)).sum
  let totalSimilarity :=
    (fileAnalyses.map (fun fa => fa.AvgSimilarity * (fa.TotalLines : ℚ))).sum
  let avgSimilarity :=
    if 0 < totalLines then totalSimilarity / (totalLines : ℚ) else 0
  { TotalLines := totalLines, OriginalLines := originalLines
    AverageSimilarity := avgSimilarity, FileAnalyses := fileAnalyses
    HistoricalSnapshots := [] }

/-- Embeds `CommitInfo` (git.go); timestamps are naturals. -/
structure CommitInfo where
  Hash : String
  Date : ℕ
deriving DecidableEq

/-- Embeds `calculateChurnFactor` (snapshot generation): piecewise-linear
down to 0.5 at churn 1000, then `0.5·exp(-(churn-1000)/2000) + 0.3`. -/
noncomputable def calculateChurnFactor (totalChurn : ℕ) : ℝ :=
  if totalChurn ≤ 50 then 1
  else if totalChurn ≤ 200 then
    let ratio : ℝ := ((totalChurn : ℝ) - 50) / 150
    1 - ratio * 0.3
  else if totalChurn ≤ 1000 then
    let ratio : ℝ := ((totalChurn : ℝ) - 200) / 800
    0.7 - ratio * 0.2
  else
    let excess : ℝ := (totalChurn : ℝ) - 1000
    0.5 * Real.exp (-excess / 2000) + 0.3

/-- Embeds the sampling loop of `GenerateHistoricalSnapshots`:
`for i := len(allCommits)-1; i >= 0; i -= sampleRate`, collecting the
visited indices.  For `sampleRate ≥ 1` and `n ≥ 1` these are exactly
`n-1, n-1-S, …` down to the last non-negative value. -/
def sampledIndices (n sampleRate : ℕ) : List ℕ :=
  (List.range ((n - 1) / sampleRate + 1)).map (fun k => (n - 1) - k * sampleRate)

/-- Embeds the sampled-commit construction of
`GenerateHistoricalSnapshots`, including the unconditional inclusion of
the most recent commit when the last sample's hash differs. -/
def sampleCommits (allCommits : List CommitInfo) (sampleRate : ℕ) :
    List CommitInfo :=
  let sampledCommits := (sampledIndices allCommits.length sampleRate).map
    (fun i => allCommits.getD i ⟨"", 0⟩)
  if sampledCommits = [] ∨
      (sampledCommits.getLastD ⟨"", 0⟩).Hash ≠ (allCommits.getD 0 ⟨"", 0⟩).Hash
  then sampledCommits ++ [allCommits.getD 0 ⟨"", 0⟩]
  else sampledCommits

/-- Embeds `GenerateHistoricalSnapshots`.  `GetAllCommits` is passed in
as the `allCommits` list (`none` result / empty list become the error
return), and `GetCommitStats` as `churnStats` (`none` models a failed
call, which the Go code replaces by zero additions and deletions). -/
noncomputable def GenerateHistoricalSnapshots (allCommits : List CommitInfo)
    (sampleRate : ℕ) (currentOriginalPct : ℝ)
    (churnStats : String → Option (ℕ × ℕ)) : Option (List Snapshot) :=
  if allCommits = [] then none
  else
    let sampledCommits := sampleCommits allCommits sampleRate
    some ((List.range sampledCommits.length).map (fun i =>
      let commit := sampledCommits.getD i ⟨"", 0⟩
      let ageRatio : ℝ :=
        if sampledCommits.length = 1 then 1
        else (i : ℝ) / ((sampledCommits.length - 1 : ℕ) : ℝ)
      let stats := (churnStats commit.Hash).getD (0, 0)
      let totalChurn := stats.1 + stats.2
      let churnFactor := calculateChurnFactor totalChurn
      let originalPct : ℝ :=
        if i = sampledCommits.length - 1 then currentOriginalPct
        else
          let decayRate : ℝ := 0.6
          let baseOriginality : ℝ := 100
          let ageDecay := 1 - ageRatio * decayRate
          let raw := baseOriginality * ageDecay * churnFactor
          let floored := if raw < 10 then 10 else raw
          if floored < currentOriginalPct then
            currentOriginalPct + ageDecay * (100 - currentOriginalPct) * 0.3
          else floored
      { CommitHash := commit.Hash, Date := commit.Date
        OriginalPct := originalPct }))

/-- Spec-side definition, from the claim's words: the 1-indexed window
positions `[p−10, p+10]` clamped to the file's bounds. -/
def windowPositions (lines : List GoStr) (p : ℕ) : List ℕ :=
  List.range' (max 1 (p - 10)) (min lines.length (p + 10) + 1 - max 1 (p - 10))

/-- Spec-side abbreviation: the similarity of the current line against
the candidate at 1-indexed position `q` of the oldest revision's text. -/
def simAt (lines : List GoStr) (targetLine : GoStr) (q : ℕ) : ℚ :=
  CalculateSimilarity targetLine (lines.getD (q - 1) [])

/-- 0-indexed variant of `simAt`, matching the loop index of
`findSimilarLineInRange`. -/
def simCandidate (lines : List GoStr) (targetLine : GoStr) (i : ℕ) : ℚ :=
  CalculateSimilarity targetLine (lines.getD i [])

theorem calculateSimilarity_self (s : GoStr) : CalculateSimilarity s s = 1 := by
  simp [CalculateSimilarity]

theorem calculateSimilarity_nil_left (s : GoStr) (h : trimSpace s ≠ []) :
    CalculateSimilarity [] s = 0 := by
  have hnil : trimSpace ([] : GoStr) = [] := rfl
  simp only [CalculateSimilarity, hnil]
  rw [if_neg (fun he => h he.symm)]
  simp

theorem editDistance_comm (a b : List Char) : editDistance a b = editDistance b a := by
  have H : ∀ (n : ℕ) (a b : List Char), a.length + b.length ≤ n →
      editDistance a b = editDistance b a := by
    intro n
    induction n with
    | zero =>
      intro a b hab
      have ha : a = [] := List.eq_nil_of_length_eq_zero (by omega)
      have hb : b = [] := List.eq_nil_of_length_eq_zero (by omega)
      subst ha; subst hb; rfl
    | succ n ih =>
      intro a b hab
      match a, b with
      | [], [] => rfl
      | [], y :: ys => simp [editDistance]
      | x :: xs, [] => simp [editDistance]
      | x :: xs, y :: ys =>
        simp only [List.length_cons] at hab
        by_cases hxy : x = y
        · subst hxy
          rw [editDistance, editDistance, if_pos rfl, if_pos rfl]
          exact ih xs ys (by omega)
        · rw [editDistance, editDistance, if_neg hxy, if_neg (fun h => hxy h.symm)]
          rw [ih xs ys (by omega), ih (x :: xs) ys (by simp; omega),
            ih xs (y :: ys) (by simp; omega)]
          rw [min_comm (editDistance ys (x :: xs)) (editDistance (y :: ys) xs)]
  exact H (a.length + b.length) a b le_rfl

/-- C5: `CalculateSimilarity` first trims both strings; trimmed equality
gives 1, exactly one trimmed-empty side gives 0, and otherwise the value
is `1 - editDistance / max(len, len)` clamped to [0, 1]. -/
theorem c5_similarity_formula (a b : GoStr) :
    (trimSpace a = trimSpace b → CalculateSimilarity a b = 1)
  ∧ (trimSpace a ≠ trimSpace b → (trimSpace a = [] ∨ trimSpace b = []) →
      CalculateSimilarity a b = 0)
  ∧ (trimSpace a ≠ trimSpace b → trimSpace a ≠ [] → trimSpace b ≠ [] →
      CalculateSimilarity a b =
        max 0 (min 1 (1 - (editDistance (trimSpace a) (trimSpace b) : ℚ) /
          (max ((trimSpace a).length : ℚ) ((trimSpace b).length : ℚ))))) := by
  refine ⟨fun h => ?_, fun h1 h2 => ?_, fun h1 h2 h3 => ?_⟩
  · simp only [CalculateSimilarity, if_pos h]
  · simp only [CalculateSimilarity, if_neg h1, if_pos h2]
  · simp only [CalculateSimilarity, if_neg h1,
      if_neg (not_or.mpr ⟨h2, h3⟩)]
    set s : ℚ := 1 - (editDistance (trimSpace a) (trimSpace b) : ℚ) /
      (max ((trimSpace a).length : ℚ) ((trimSpace b).length : ℚ)) with hs
    rcases lt_or_le s 0 with h0 | h0
    · rw [if_pos h0, min_eq_right (by linarith : s ≤ 1), max_eq_left (le_of_lt h0)]
    · rw [if_neg (not_lt.mpr h0)]
      rcases lt_or_le 1 s with hone | hone
      · rw [if_pos hone, min_eq_left (le_of_lt hone)]
        norm_num
      · rw [if_neg (not_lt.mpr hone), min_eq_right hone, max_eq_right h0]

/-- C5 witness: on two identical strings the first clause yields 1. -/
theorem c5_similarity_formula_witness :
    CalculateSimilarity "func add(a, b)".toList "func add(a, b)".toList = 1 :=
  (c5_similarity_formula "func add(a, b)".toList "func add(a, b)".toList).1 rfl

/-- C9: similarity is symmetric in its two arguments. -/
theorem c9_similarity_symm (a b : GoStr) :
    CalculateSimilarity a b = CalculateSimilarity b a := by
  by_cases h1 : trimSpace a = trimSpace b
  · simp [CalculateSimilarity, h1]
  · have h1' : trimSpace b ≠ trimSpace a := Ne.symm h1
    by_cases ha : trimSpace a = [] <;> by_cases hb : trimSpace b = []
    · exact absurd (ha.trans hb.symm) h1
    · simp [CalculateSimilarity, h1, h1', ha, hb]
    · simp [CalculateSimilarity, h1, h1', ha, hb]
    · simp only [CalculateSimilarity, if_neg h1, if_neg h1',
        if_neg (not_or.mpr ⟨ha, hb⟩), if_neg (not_or.mpr ⟨hb, ha⟩)]
      rw [editDistance_comm,
        max_comm ((trimSpace a).length : ℚ) ((trimSpace b).length : ℚ)]

/-- C6: every branch of `TraceLineHistory` stores as `Similarity` the
similarity of the recorded origin text against the current text. -/
theorem c6_similarity_recomputed (getFileHistory : Option (List String))
    (getFileAtCommit : String → Option GoStr) (currentLine : GoStr)
    (currentLineNum : ℕ) (blameInfo : BlameInfo) :
    (TraceLineHistory getFileHistory getFileAtCommit currentLine currentLineNum
        blameInfo).Similarity =
      CalculateSimilarity
        (TraceLineHistory getFileHistory getFileAtCommit currentLine
          currentLineNum blameInfo).OriginalLine
        (TraceLineHistory getFileHistory getFileAtCommit currentLine
          currentLineNum blameInfo).CurrentLine := by
  cases getFileHistory with
  | none => simp [TraceLineHistory, calculateSimilarity_self]
  | some commitHashes =>
    by_cases hch : commitHashes = []
    · simp [TraceLineHistory, hch, calculateSimilarity_self]
    · cases hfa : getFileAtCommit (commitHashes.getLastD "") with
      | none =>
        simp only [List.getLastD_eq_getLast?] at hfa
        simp [TraceLineHistory, hch, hfa, calculateSimilarity_self]
      | some firstContent =>
        simp only [List.getLastD_eq_getLast?] at hfa
        simp [TraceLineHistory, hch, hfa]

/-- C7: when the revision list is unavailable or empty, or the oldest
revision's text cannot be fetched, `TraceLineHistory` degrades to the
current line being its own origin with similarity 1. -/
theorem c7_fetch_failure_fallback (getFileHistory : Option (List String))
    (getFileAtCommit : String → Option GoStr) (currentLine : GoStr)
    (currentLineNum : ℕ) (blameInfo : BlameInfo)
    (h : getFileHistory = none ∨ getFileHistory = some [] ∨
      ∃ commitHashes, getFileHistory = some commitHashes ∧ commitHashes ≠ [] ∧
        getFileAtCommit (commitHashes.getLastD "") = none) :
    (TraceLineHistory getFileHistory getFileAtCommit currentLine currentLineNum
        blameInfo).OriginalLine = currentLine ∧
    (TraceLineHistory getFileHistory getFileAtCommit currentLine currentLineNum
        blameInfo).CurrentLine = currentLine ∧
    (TraceLineHistory getFileHistory getFileAtCommit currentLine currentLineNum
        blameInfo).Similarity = 1 := by
  rcases h with h | h | ⟨commitHashes, h, hne, hfa⟩ <;> subst h
  · simp [TraceLineHistory]
  · simp [TraceLineHistory]
  · simp only [List.getLastD_eq_getLast?] at hfa
    simp [TraceLineHistory, hne, hfa]

/-- C7 witness: a failed revision-list fetch yields the fallback record. -/
theorem c7_fetch_failure_fallback_witness :
    (TraceLineHistory none (fun _ => none) "x := 1".toList 3
        ⟨"h", 3, 7⟩).OriginalLine = "x := 1".toList ∧
    (TraceLineHistory none (fun _ => none) "x := 1".toList 3
        ⟨"h", 3, 7⟩).CurrentLine = "x := 1".toList ∧
    (TraceLineHistory none (fun _ => none) "x := 1".toList 3
        ⟨"h", 3, 7⟩).Similarity = 1 :=
  c7_fetch_failure_fallback none (fun _ => none) "x := 1".toList 3 ⟨"h", 3, 7⟩
    (Or.inl rfl)

/-- C10: the churn factor is not monotone non-increasing: it is 0.5 at
churn 1000 but jumps to `0.5·exp(-1/2000) + 0.3 > 0.5` at churn 1001. -/
theorem c10_churn_factor_jump :
    calculateChurnFactor 1000 = 0.5 ∧
    calculateChurnFactor 1000 < calculateChurnFactor 1001 := by
  have h1000 : calculateChurnFactor 1000 = 0.5 := by
    unfold calculateChurnFactor
    norm_num
  refine ⟨h1000, ?_⟩
  rw [h1000]
  unfold calculateChurnFactor
  norm_num
  have hexp := Real.add_one_le_exp (-(1 / 2000) : ℝ)
  nlinarith [hexp]

theorem getLast?_map_range {α : Type} (f : ℕ → α) (n : ℕ) (h : n ≠ 0) :
    ((List.range n).map f).getLast? = some (f (n - 1)) := by
  obtain ⟨m, rfl⟩ : ∃ m, n = m + 1 := ⟨n - 1, by omega⟩
  rw [List.range_succ, List.map_append]
  simp

theorem sampleCommits_ne_nil (allCommits : List CommitInfo) (sampleRate : ℕ) :
    sampleCommits allCommits sampleRate ≠ [] := by
  simp only [sampleCommits]
  split_ifs with h
  · simp
  · push_neg at h
    exact h.1

/-- C1: for any non-empty revision list and stride, the last emitted
snapshot carries exactly the supplied current percentage. -/
theorem c1_final_snapshot_anchor (allCommits : List CommitInfo) (sampleRate : ℕ)
    (currentOriginalPct : ℝ) (churnStats : String → Option (ℕ × ℕ))
    (h1 : allCommits ≠ []) (h2 : 1 ≤ sampleRate) :
    ∃ snapshots lastSnap,
      GenerateHistoricalSnapshots allCommits sampleRate currentOriginalPct
        churnStats = some snapshots ∧
      snapshots.getLast? = some lastSnap ∧
      lastSnap.OriginalPct = currentOriginalPct := by
  have hne := sampleCommits_ne_nil allCommits sampleRate
  have hlen : (sampleCommits allCommits sampleRate).length ≠ 0 := by
    simpa [List.length_eq_zero] using hne
  simp only [GenerateHistoricalSnapshots, if_neg h1]
  refine ⟨_, _, rfl, getLast?_map_range _ _ hlen, ?_⟩
  simp

/-- C1 witness: a single-commit history anchored at 42. -/
theorem c1_final_snapshot_anchor_witness :
    ∃ snapshots lastSnap,
      GenerateHistoricalSnapshots [⟨"a", 0⟩] 1 (42 : ℝ) (fun _ => none) =
        some snapshots ∧
      snapshots.getLast? = some lastSnap ∧ lastSnap.OriginalPct = 42 :=
  c1_final_snapshot_anchor [⟨"a", 0⟩] 1 42 (fun _ => none) (by simp)
    (by norm_num)

theorem generateHistoricalSnapshots_singleton (c : CommitInfo) (sampleRate : ℕ)
    (pct : ℝ) (churnStats : String → Option (ℕ × ℕ)) :
    GenerateHistoricalSnapshots [c] sampleRate pct churnStats =
      some [⟨c.Hash, c.Date, pct⟩] := by
  have hr1 : List.range 1 = [0] := rfl
  simp [GenerateHistoricalSnapshots, sampleCommits, sampledIndices, hr1]

/-- C2 counterexample: with current percentage 5 the (only, hence final)
snapshot's value is 5, which is below 10. -/
theorem c2_counterexample_below_floor :
    GenerateHistoricalSnapshots [⟨"a", 0⟩] 1 (5 : ℝ) (fun _ => none) =
      some [⟨"a", 0, 5⟩] ∧ (5 : ℝ) < 10 :=
  ⟨generateHistoricalSnapshots_singleton ⟨"a", 0⟩ 1 5 (fun _ => none),
   by norm_num⟩

/-- C2 (amended): whenever the supplied current percentage is at least
10, every emitted snapshot value is at least 10; all snapshots other
than the final one satisfy the floor unconditionally, but the final one
is pinned to the supplied percentage. -/
theorem c2_amended_floor (allCommits : List CommitInfo) (sampleRate : ℕ)
    (currentOriginalPct : ℝ) (churnStats : String → Option (ℕ × ℕ))
    (hpct : (10 : ℝ) ≤ currentOriginalPct) (snapshots : List Snapshot)
    (hsnaps : GenerateHistoricalSnapshots allCommits sampleRate
      currentOriginalPct churnStats = some snapshots) :
    ∀ s ∈ snapshots, (10 : ℝ) ≤ s.OriginalPct := by
  by_cases hc : allCommits = []
  · simp [GenerateHistoricalSnapshots, hc] at hsnaps
  · simp only [GenerateHistoricalSnapshots, if_neg hc, Option.some.injEq]
      at hsnaps
    subst hsnaps
    intro s hs
    rw [List.mem_map] at hs
    obtain ⟨i, hi, rfl⟩ := hs
    rw [List.mem_range] at hi
    set m := (sampleCommits allCommits sampleRate).length with hm
    dsimp only
    by_cases hlast : i = m - 1
    · rw [if_pos hlast]
      exact hpct
    · rw [if_neg hlast]
      have hm1 : m ≠ 1 := by omega
      rw [if_neg hm1]
      set A : ℝ := (i : ℝ) / ((m - 1 : ℕ) : ℝ) with hA
      have hmpos : (0 : ℝ) < ((m - 1 : ℕ) : ℝ) := by
        have : 2 ≤ m := by omega
        exact_mod_cast Nat.pos_of_ne_zero (by omega)
      have hA0 : 0 ≤ A := div_nonneg (Nat.cast_nonneg i) (le_of_lt hmpos)
      have hA1 : A ≤ 1 := by
        rw [hA, div_le_one hmpos]
        exact_mod_cast (by omega : i ≤ m - 1)
      have hanchorbound : (10 : ℝ) ≤ currentOriginalPct +
          (1 - A * 0.6) * (100 - currentOriginalPct) * 0.3 := by
        rcases le_or_lt currentOriginalPct 100 with h100 | h100
        · have hnn : 0 ≤ (1 - A * 0.6) * (100 - currentOriginalPct) * 0.3 := by
            apply mul_nonneg (mul_nonneg (by linarith) (by linarith))
            norm_num
          linarith
        · nlinarith [mul_nonneg (by linarith : (0 : ℝ) ≤ A * 0.6)
            (by linarith : (0 : ℝ) ≤ currentOriginalPct - 100)]
      split_ifs with hf1 hf2
      · exact hanchorbound
      · norm_num
      · exact hanchorbound
      · linarith [not_lt.mp hf1]

/-- C2 (amended) witness: percentage 50 on a single-commit history. -/
theorem c2_amended_floor_witness :
    (10 : ℝ) ≤ 50 ∧
    ∀ s ∈ [Snapshot.mk "a" 0 (50 : ℝ)], (10 : ℝ) ≤ s.OriginalPct :=
  ⟨by norm_num,
   c2_amended_floor [⟨"a", 0⟩] 1 50 (fun _ => none) (by norm_num) _
     (generateHistoricalSnapshots_singleton ⟨"a", 0⟩ 1 50 (fun _ => none))⟩

/-- C8: aggregation sums the per-file line counts, computes the
line-count-weighted mean similarity, and is invariant under permutation
of the input file results. -/
theorem c8_aggregate_sums_and_perm (fileAnalyses fileAnalyses' : List FileAnalysis)
    (hperm : fileAnalyses.Perm fileAnalyses') :
    ((aggregateResults fileAnalyses).TotalLines =
        (fileAnalyses.map (fun fa => fa.TotalLines)).sum ∧
      (aggregateResults fileAnalyses).OriginalLines =
        (fileAnalyses.map (fun fa => fa.OriginalLines)).sum ∧
      (aggregateResults fileAnalyses).AverageSimilarity =
        (fileAnalyses.map (fun fa => fa.AvgSimilarity * (fa.TotalLines : ℚ))).sum /
          (((fileAnalyses.map (fun fa => fa.TotalLines)).sum : ℕ) : ℚ)) ∧
    ((aggregateResults fileAnalyses).TotalLines =
        (aggregateResults fileAnalyses').TotalLines ∧
      (aggregateResults fileAnalyses).OriginalLines =
        (aggregateResults fileAnalyses').OriginalLines ∧
      (aggregateResults fileAnalyses).AverageSimilarity =
        (aggregateResults fileAnalyses').AverageSimilarity) := by
  have havg : ∀ l : List FileAnalysis,
      (aggregateResults l).AverageSimilarity =
        (l.map (fun fa => fa.AvgSimilarity * (fa.TotalLines : ℚ))).sum /
          (((l.map (fun fa => fa.TotalLines)).sum : ℕ) : ℚ) := by
    intro l
    simp only [aggregateResults]
    split_ifs with h
    · rfl
    · have hzero : (l.map (fun fa => fa.TotalLines)).sum = 0 := by omega
      have hnum : (l.map (fun fa => fa.AvgSimilarity * (fa.TotalLines : ℚ))).sum = 0 := by
        apply List.sum_eq_zero
        intro x hx
        rw [List.mem_map] at hx
        obtain ⟨fa, hfa, rfl⟩ := hx
        have : fa.TotalLines = 0 := by
          have := List.sum_eq_zero_iff.mp hzero fa.TotalLines
            (List.mem_map_of_mem _ hfa)
          exact this
        simp [this]
      simp [hzero, hnum]
  have hT : (fileAnalyses.map (fun fa => fa.TotalLines)).sum =
      (fileAnalyses'.map (fun fa => fa.TotalLines)).sum :=
    (hperm.map _).sum_eq
  have hO : (fileAnalyses.map (fun fa => fa.OriginalLines)).sum =
      (fileAnalyses'.map (fun fa => fa.OriginalLines)).sum :=
    (hperm.map _).sum_eq
  have hS : (fileAnalyses.map (fun fa => fa.AvgSimilarity * (fa.TotalLines : ℚ))).sum =
      (fileAnalyses'.map (fun fa => fa.AvgSimilarity * (fa.TotalLines : ℚ))).sum :=
    (hperm.map _).sum_eq
  refine ⟨⟨rfl, rfl, havg _⟩, ⟨hT, hO, ?_⟩⟩
  rw [havg fileAnalyses, havg fileAnalyses', hT, hS]

/-- C8 witness: swapping two concrete file results leaves the aggregated
weighted mean unchanged. -/
theorem c8_aggregate_sums_and_perm_witness :
    (aggregateResults [⟨"a", 1, 1, 1, []⟩, ⟨"b", 3, 0, 1/2, []⟩]).AverageSimilarity =
      (aggregateResults [⟨"b", 3, 0, 1/2, []⟩, ⟨"a", 1, 1, 1, []⟩]).AverageSimilarity :=
  (c8_aggregate_sums_and_perm [⟨"a", 1, 1, 1, []⟩, ⟨"b", 3, 0, 1/2, []⟩]
    [⟨"b", 3, 0, 1/2, []⟩, ⟨"a", 1, 1, 1, []⟩]
    (List.Perm.swap (⟨"b", 3, 0, 1/2, []⟩ : FileAnalysis)
      (⟨"a", 1, 1, 1, []⟩ : FileAnalysis) [])).2.2.2

/-- C3: the bug exhibited concretely.  On a two-line Go file whose first
line is a comment (`"// c\nx"`, blame covering both lines), the produced
FileAnalysis has `TotalLines = 2` — the comment line is traced because
`TraceFileLines` skips only blank lines — while the classifier keeps
exactly 1 line, contradicting `totalLines = classifier-kept count`. -/
theorem c3_totalLines_vs_classifier_kept :
    ((analyzeFile IsBlankOrCommentGo none (fun _ => none)
        (some [⟨"h", 1, 0⟩, ⟨"h", 2, 0⟩]) "f.go" ("// c\nx".toList)).map
      (fun fa => fa.TotalLines)) = some 2 ∧
    ((splitLines ("// c\nx".toList)).filter
      (fun line => !IsBlankOrCommentGo line)).length = 1 := by
  constructor
  · decide
  · decide

theorem minThreshold_pos : (0 : ℚ) < MinimumSimilarityThreshold := by
  norm_num [MinimumSimilarityThreshold]

theorem windowStep_eq (lines : List GoStr) (targetLine : GoStr)
    (acc : GoStr × ℚ × ℕ) (i : ℕ) :
    windowStep lines targetLine acc i =
      if MinimumSimilarityThreshold ≤ simCandidate lines targetLine i ∧
          acc.2.1 < simCandidate lines targetLine i then
        (lines.getD i [], simCandidate lines targetLine i, i + 1)
      else acc := rfl

/-- The selection invariant of the search loop: after folding over any
index range, either nothing qualified (accumulator untouched) or the
accumulator holds the lowest-index maximiser among qualifying
candidates. -/
theorem windowFold_characterization (lines : List GoStr) (targetLine : GoStr)
    (start : ℕ) : ∀ n : ℕ,
    ((List.range' start n).foldl (windowStep lines targetLine)
        ([], (0 : ℚ), 0) = ([], 0, 0) ∧
      ∀ j ∈ List.range' start n,
        simCandidate lines targetLine j < MinimumSimilarityThreshold)
    ∨ (∃ i ∈ List.range' start n,
        (List.range' start n).foldl (windowStep lines targetLine)
            ([], (0 : ℚ), 0) =
          (lines.getD i [], simCandidate lines targetLine i, i + 1) ∧
        MinimumSimilarityThreshold ≤ simCandidate lines targetLine i ∧
        (∀ j ∈ List.range' start n,
          MinimumSimilarityThreshold ≤ simCandidate lines targetLine j →
          simCandidate lines targetLine j ≤ simCandidate lines targetLine i) ∧
        (∀ j ∈ List.range' start n, j < i →
          simCandidate lines targetLine j < simCandidate lines targetLine i)) := by
  intro n
  induction n with
  | zero =>
    left
    exact ⟨rfl, by simp⟩
  | succ n ih =>
    have hconcat : List.range' start (n + 1) =
        List.range' start n ++ [start + n] := by
      have h := @List.range'_concat 1 start n
      simpa using h
    rw [hconcat, List.foldl_append]
    simp only [List.foldl_cons, List.foldl_nil]
    rcases ih with ⟨hA, hall⟩ | ⟨i, hi, hA, hTi, hmax, hlt⟩
    · rw [hA, windowStep_eq]
      by_cases hk : MinimumSimilarityThreshold ≤
          simCandidate lines targetLine (start + n)
      · rw [if_pos ⟨hk, lt_of_lt_of_le minThreshold_pos hk⟩]
        right
        refine ⟨start + n, by simp, rfl, hk, ?_, ?_⟩
        · intro j hj hTj
          rcases List.mem_append.mp hj with hj | hj
          · exact absurd hTj (not_le.mpr (hall j hj))
          · have hjk : j = start + n := by simpa using hj
            subst hjk
            exact le_refl _
        · intro j hj hjk
          rcases List.mem_append.mp hj with hj | hj
          · exact lt_of_lt_of_le (hall j hj) hk
          · have hje : j = start + n := by simpa using hj
            subst hje
            exact absurd hjk (lt_irrefl _)
      · rw [if_neg (fun hc => hk hc.1)]
        left
        refine ⟨rfl, ?_⟩
        intro j hj
        rcases List.mem_append.mp hj with hj | hj
        · exact hall j hj
        · have hje : j = start + n := by simpa using hj
          subst hje
          exact not_le.mp hk
    · rw [hA, windowStep_eq]
      have hik : i < start + n := (List.mem_range'_1.mp hi).2
      by_cases hcond : MinimumSimilarityThreshold ≤
            simCandidate lines targetLine (start + n) ∧
          ((lines.getD i [], simCandidate lines targetLine i, i + 1) :
            GoStr × ℚ × ℕ).2.1 < simCandidate lines targetLine (start + n)
      · rw [if_pos hcond]
        right
        have hbeat : simCandidate lines targetLine i <
            simCandidate lines targetLine (start + n) := hcond.2
        refine ⟨start + n, by simp, rfl, hcond.1, ?_, ?_⟩
        · intro j hj hTj
          rcases List.mem_append.mp hj with hj | hj
          · exact le_of_lt (lt_of_le_of_lt (hmax j hj hTj) hbeat)
          · have hje : j = start + n := by simpa using hj
            subst hje
            exact le_refl _
        · intro j hj hjk
          rcases List.mem_append.mp hj with hj | hj
          · by_cases hTj : MinimumSimilarityThreshold ≤
                simCandidate lines targetLine j
            · exact lt_of_le_of_lt (hmax j hj hTj) hbeat
            · exact lt_of_lt_of_le (not_le.mp hTj) hcond.1
          · have hje : j = start + n := by simpa using hj
            subst hje
            exact absurd hjk (lt_irrefl _)
      · rw [if_neg hcond]
        right
        refine ⟨i, List.mem_append_left _ hi, rfl, hTi, ?_, ?_⟩
        · intro j hj hTj
          rcases List.mem_append.mp hj with hj | hj
          · exact hmax j hj hTj
          · have hje : j = start + n := by simpa using hj
            subst hje
            by_cases hgt : simCandidate lines targetLine i <
                simCandidate lines targetLine (start + n)
            · exact absurd ⟨hTj, hgt⟩ hcond
            · exact not_lt.mp hgt
        · intro j hj hji
          rcases List.mem_append.mp hj with hj | hj
          · exact hlt j hj hji
          · have hje : j = start + n := by simpa using hj
            subst hje
            exact absurd hji (by omega)

/-- The 1-indexed spec window corresponds exactly to the 0-indexed index
range scanned by the code's loop. -/
theorem mem_windowPositions (lines : List GoStr) (p : ℕ) (hp : 1 ≤ p)
    (hl : lines ≠ []) (q : ℕ) :
    q ∈ windowPositions lines p ↔
      1 ≤ q ∧ q - 1 ∈ List.range' (p - 1 - LineMovementWindow)
        (min (p - 1 + LineMovementWindow) (lines.length - 1) + 1 -
          (p - 1 - LineMovementWindow)) := by
  have hlen : 1 ≤ lines.length := List.length_pos.mpr hl
  simp only [windowPositions, List.mem_range'_1, LineMovementWindow]
  omega

/-- C4: the tracer's oldest-revision search considers exactly positions
`[p−10, p+10]` clamped to the file's bounds; when some candidate reaches
the 0.25 threshold it returns the lowest-index similarity maximiser
among qualifying candidates, and when none qualifies it returns empty
origin text whose similarity against the (non-blank) current line is 0. -/
theorem c4_window_search (lines : List GoStr) (p : ℕ) (targetLine : GoStr)
    (hp : 1 ≤ p) (hl : lines ≠ []) (ht : trimSpace targetLine ≠ []) :
    ((∃ q0 ∈ windowPositions lines p,
        MinimumSimilarityThreshold ≤ simAt lines targetLine q0) →
      ∃ q ∈ windowPositions lines p,
        MinimumSimilarityThreshold ≤ simAt lines targetLine q ∧
        findSimilarLineInRange lines p targetLine =
          (lines.getD (q - 1) [], q) ∧
        (∀ r ∈ windowPositions lines p,
          MinimumSimilarityThreshold ≤ simAt lines targetLine r →
          simAt lines targetLine r ≤ simAt lines targetLine q) ∧
        (∀ r ∈ windowPositions lines p,
          MinimumSimilarityThreshold ≤ simAt lines targetLine r →
          simAt lines targetLine r = simAt lines targetLine q → q ≤ r)) ∧
    ((∀ q ∈ windowPositions lines p,
        simAt lines targetLine q < MinimumSimilarityThreshold) →
      findSimilarLineInRange lines p targetLine = ([], 0) ∧
      CalculateSimilarity [] targetLine = 0) := by
  have hfind : findSimilarLineInRange lines p targetLine =
      (((List.range' (p - 1 - LineMovementWindow)
          (min (p - 1 + LineMovementWindow) (lines.length - 1) + 1 -
            (p - 1 - LineMovementWindow))).foldl
          (windowStep lines targetLine) ([], (0 : ℚ), 0)).1,
       ((List.range' (p - 1 - LineMovementWindow)
          (min (p - 1 + LineMovementWindow) (lines.length - 1) + 1 -
            (p - 1 - LineMovementWindow))).foldl
          (windowStep lines targetLine) ([], (0 : ℚ), 0)).2.2) := by
    simp only [findSimilarLineInRange, if_neg hl]
  rcases windowFold_characterization lines targetLine
      (p - 1 - LineMovementWindow)
      (min (p - 1 + LineMovementWindow) (lines.length - 1) + 1 -
        (p - 1 - LineMovementWindow)) with
    ⟨hA, hall⟩ | ⟨i, hi, hA, hTi, hmax, hlt⟩
  · constructor
    · rintro ⟨q0, hq0, hTq0⟩
      have hq0' := (mem_windowPositions lines p hp hl q0).mp hq0
      exact absurd hTq0 (not_le.mpr (hall (q0 - 1) hq0'.2))
    · intro _
      refine ⟨?_, calculateSimilarity_nil_left targetLine ht⟩
      rw [hfind, hA]
  · constructor
    · intro _
      refine ⟨i + 1, (mem_windowPositions lines p hp hl (i + 1)).mpr
        ⟨by omega, hi⟩, hTi, ?_, ?_, ?_⟩
      · rw [hfind, hA]
        rfl
      · intro r hr hTr
        have hr' := (mem_windowPositions lines p hp hl r).mp hr
        exact hmax (r - 1) hr'.2 hTr
      · intro r hr hTr heq
        have hr' := (mem_windowPositions lines p hp hl r).mp hr
        by_contra hcon
        push_neg at hcon
        have hri : r - 1 < i := by omega
        exact absurd heq (ne_of_lt (hlt (r - 1) hr'.2 hri))
    · intro hnone
      have hmem := (mem_windowPositions lines p hp hl (i + 1)).mpr
        ⟨by omega, hi⟩
      exact absurd hTi (not_le.mpr (hnone (i + 1) hmem))

/-- C4 witness: a one-line file whose single window position matches the
current line exactly. -/
theorem c4_window_search_witness :
    ∃ q ∈ windowPositions ["foo".toList] 1,
      MinimumSimilarityThreshold ≤ simAt ["foo".toList] "foo".toList q ∧
      findSimilarLineInRange ["foo".toList] 1 "foo".toList =
        (["foo".toList].getD (q - 1) [], q) ∧
      (∀ r ∈ windowPositions ["foo".toList] 1,
        MinimumSimilarityThreshold ≤ simAt ["foo".toList] "foo".toList r →
        simAt ["foo".toList] "foo".toList r ≤
          simAt ["foo".toList] "foo".toList q) ∧
      (∀ r ∈ windowPositions ["foo".toList] 1,
        MinimumSimilarityThreshold ≤ simAt ["foo".toList] "foo".toList r →
        simAt ["foo".toList] "foo".toList r =
          simAt ["foo".toList] "foo".toList q → q ≤ r) := by
  have hsim : simAt ["foo".toList] "foo".toList 1 = 1 := by
    simp [simAt, calculateSimilarity_self]
  exact (c4_window_search ["foo".toList] 1 "foo".toList (by norm_num)
      (by simp) (by decide)).1
    ⟨1, by decide, by rw [hsim]; norm_num [MinimumSimilarityThreshold]⟩

end ShipOfTheseus
